import Mathlib

/-!
Shallow embedding of the probabilistic-micropayment sender monitor
(`pm/sendermonitor.go`) of the go-livepeer repository, together with proofs
of the specified properties of its float accounting, error handling, TTL
cleanup and cache behaviour.

Modelling conventions:
* `ethcommon.Address` is opaque to the monitor; it is modelled as `Nat`.
* `*big.Int` amounts are modelled as `Int`.
* Go errors are modelled as `String` values (`Err`); a Go function returning
  `(T, error)` whose callers only use the value when the error is `nil`
  becomes `Except Err T`.  `SenderManager.ClaimedReserve` is the exception:
  the source assigns its error to `err` but never inspects it, so the
  environment exposes the returned value and the returned error separately.
* The Go map `senders map[ethcommon.Address]*remoteSender` is modelled as an
  association list keyed by address.
* Calls to the injected collaborators `em.ClearErrCount`, `queue.SignalMaxFloat`
  and `smgr.Clear` are modelled as event logs inside the state (most recent
  event first).
* `unixNow()` is injectable in the source (stubbed by tests); each operation
  takes the current time as an `Int` parameter.
* Goroutine mechanics (the ticket-queue consumer loop, the `done` channel
  send in `cleanup`, channel rendezvous) are concurrency and are not part of
  the embedding; the state retains the queued tickets of each sender.
-/

namespace PM

/-- Sender addresses (20-byte identifiers in the source, opaque here). -/
abbrev Addr := Nat

/-- Go `error` values, identified by their message. -/
abbrev Err := String

/-- ReserveState of a sender's reserve (`NotFrozen`, `Frozen`, `Thawed`). -/
inductive ReserveState where
  | notFrozen
  | frozen
  | thawed
deriving DecidableEq

/-- SenderInfo returned by `SenderManager.GetSenderInfo`. -/
structure SenderInfo where
  deposit : Int
  withdrawBlock : Int
  reserve : Int
  reserveState : ReserveState
  thawRound : Int
deriving DecidableEq

/-- SignedTicket as far as the monitor observes it: a nonce and a face value. -/
structure SignedTicket where
  senderNonce : Nat
  faceValue : Int
deriving DecidableEq

/-- External collaborators of `senderMonitor`, fixed for the duration of a
run (the source injects them as interfaces).  `claimedReserveVal` and
`claimedReserveErr` are the two return values of
`SenderManager.ClaimedReserve(reserveHolder, claimant)`; `poolSize` is
`RoundsManager.GetTranscoderPoolSize()`. -/
structure ExtEnv where
  getSenderInfo : Addr → Except Err SenderInfo
  claimedReserveVal : Addr → Addr → Int
  claimedReserveErr : Addr → Addr → Option Err
  poolSize : Int

/-- Go struct `remoteSender`: pending amount, the ticket queue's contents and
the last-access timestamp.  The `done` channel is goroutine plumbing and is
omitted. -/
structure remoteSender where
  pendingAmount : Int
  ticketsQueued : List SignedTicket
  lastAccess : Int
deriving DecidableEq

/-- State of a `senderMonitor`: the sender map plus logs of the observable
calls made to the injected collaborators (most recent first). -/
structure SMState where
  senders : List (Addr × remoteSender)
  clearErrCountLog : List Addr
  signalLog : List (Addr × Int)
  smgrClearLog : List Addr
deriving DecidableEq

/-- The state of a freshly constructed monitor (`NewSenderMonitor`). -/
def initState : SMState :=
  { senders := [], clearErrCountLog := [], signalLog := [], smgrClearLog := [] }

/-- Association-list lookup, modelling Go map indexing (`nil` when absent). -/
def lookupA {β : Type} : List (Addr × β) → Addr → Option β
  | [], _ => none
  | (k, v) :: rest, a => if k = a then some v else lookupA rest a

/-- Association-list update, modelling Go map assignment. -/
def setA {β : Type} : List (Addr × β) → Addr → β → List (Addr × β)
  | [], a, v => [(a, v)]
  | (k, w) :: rest, a, v =>
      if k = a then (a, v) :: rest else (k, w) :: setA rest a v

/-- Keys of an association list. -/
def keysOf {β : Type} : List (Addr × β) → List Addr
  | [] => []
  | (k, _) :: rest => k :: keysOf rest

/-- The pending amount the monitor would read for `addr`
(`sm.senders[addr].pendingAmount`); 0 when no record exists (callers go
through `ensureCache` first, which installs a record with `big.NewInt(0)`). -/
def pendingOf (s : SMState) (addr : Addr) : Int :=
  match lookupA s.senders addr with
  | some r => r.pendingAmount
  | none => 0

/-- The queued tickets of `addr`; `[]` when no record exists. -/
def ticketsOf (s : SMState) (addr : Addr) : List SignedTicket :=
  match lookupA s.senders addr with
  | some r => r.ticketsQueued
  | none => []

/-- Go error returned by `AddFloat` when the amount exceeds `pendingAmount`. -/
def insufficientPendingErr : Err :=
  "cannot subtract from insufficient pendingAmount"

/-- `senderMonitor.cache`: install a fresh record with zero pending amount, a
new (empty, running) ticket queue and the current time as last access. -/
def cache (now : Int) (s : SMState) (addr : Addr) : SMState :=
  { s with senders := setA s.senders addr { pendingAmount := 0, ticketsQueued := [], lastAccess := now } }

/-- `senderMonitor.ensureCache`: create the record if missing, then stamp its
`lastAccess` with the current time. -/
def ensureCache (now : Int) (s : SMState) (addr : Addr) : SMState :=
  let s1 := if (lookupA s.senders addr).isNone then cache now s addr else s
  match lookupA s1.senders addr with
  | some r =>
      { s1 with senders := setA s1.senders addr { r with lastAccess := now } }
  | none => s1

/-- The arithmetic core of `senderMonitor.reserveAlloc`, taking the values
read from the collaborators.  `GetSenderInfo` errors are checked and
propagated; the `ClaimedReserve` error is assigned to `err` in the source but
never inspected, so it does not appear here at all.  `big.Int.Div` is
Euclidean division, i.e. `Int.ediv`. -/
def reserveAllocOf (infoRes : Except Err SenderInfo) (claimedVal : Int)
    (poolSize : Int) : Except Err Int :=
  match infoRes with
  | .error e => .error e
  | .ok info =>
      if poolSize = 0 then .ok 0
      else .ok (Int.ediv info.reserve poolSize - claimedVal)

/-- `senderMonitor.reserveAlloc`. -/
def reserveAlloc (env : ExtEnv) (claimant : Addr) (addr : Addr) :
    Except Err Int :=
  reserveAllocOf (env.getSenderInfo addr)
    (env.claimedReserveVal addr claimant) env.poolSize

/-- `senderMonitor.maxFloat` (the private helper):
`reserveAlloc - pendingAmount`.  Callers hold the lock and have gone through
`ensureCache`, so the record exists. -/
def maxFloat (env : ExtEnv) (claimant : Addr) (s : SMState) (addr : Addr) :
    Except Err Int :=
  match reserveAlloc env claimant addr with
  | .error e => .error e
  | .ok ra => .ok (ra - pendingOf s addr)

/-- `senderMonitor.AddFloat`.  Returns the updated state and the Go error
value (`none` on success). -/
def AddFloat (env : ExtEnv) (claimant : Addr) (now : Int) (s : SMState)
    (addr : Addr) (amount : Int) : SMState × Option Err :=
  let s1 := ensureCache now s addr
  match lookupA s1.senders addr with
  | none => (s1, none)
  | some rec =>
      if rec.pendingAmount < amount then
        (s1, some insufficientPendingErr)
      else
        let s2 := { s1 with senders := setA s1.senders addr { rec with pendingAmount := rec.pendingAmount - amount } }
        let s3 := { s2 with clearErrCountLog := addr :: s2.clearErrCountLog }
        match maxFloat env claimant s3 addr with
        | .error e => (s3, some e)
        | .ok mf => ({ s3 with signalLog := (addr, mf) :: s3.signalLog }, none)

/-- `senderMonitor.SubFloat`.  No error return and no max-float signal. -/
def SubFloat (now : Int) (s : SMState) (addr : Addr) (amount : Int) : SMState :=
  let s1 := ensureCache now s addr
  match lookupA s1.senders addr with
  | none => s1
  | some rec =>
      let s2 := { s1 with senders := setA s1.senders addr { rec with pendingAmount := rec.pendingAmount + amount } }
      { s2 with clearErrCountLog := addr :: s2.clearErrCountLog }

/-- `senderMonitor.MaxFloat` (the public entry point). -/
def MaxFloat (env : ExtEnv) (claimant : Addr) (now : Int) (s : SMState)
    (addr : Addr) : SMState × Except Err Int :=
  let s1 := ensureCache now s addr
  (s1, maxFloat env claimant s1 addr)

/-- `senderMonitor.QueueTicket`: append the ticket to the sender's queue. -/
def QueueTicket (now : Int) (s : SMState) (addr : Addr) (t : SignedTicket) :
    SMState :=
  let s1 := ensureCache now s addr
  match lookupA s1.senders addr with
  | none => s1
  | some rec =>
      { s1 with senders := setA s1.senders addr { rec with ticketsQueued := rec.ticketsQueued ++ [t] } }

/-- The loop body of `senderMonitor.cleanup`: split the sender map into the
entries that are kept and the keys of the entries evicted because
`unixNow() - lastAccess > ttl`. -/
def cleanupSenders (ttl now : Int) :
    List (Addr × remoteSender) → List (Addr × remoteSender) × List Addr
  | [] => ([], [])
  | (k, v) :: rest =>
      let res := cleanupSenders ttl now rest
      if ttl < now - v.lastAccess then (res.1, k :: res.2)
      else ((k, v) :: res.1, res.2)

/-- `senderMonitor.cleanup`: evict every expired record and call
`smgr.Clear` on each evicted address. -/
def cleanup (ttl now : Int) (s : SMState) : SMState :=
  let res := cleanupSenders ttl now s.senders
  { s with senders := res.1, smgrClearLog := res.2 ++ s.smgrClearLog }

/-! ### Association-list lemmas -/

theorem lookupA_setA_self {β : Type} (l : List (Addr × β)) (a : Addr) (v : β) :
    lookupA (setA l a v) a = some v := by
  induction l with
  | nil => simp [setA, lookupA]
  | cons hd tl ih =>
      obtain ⟨k, w⟩ := hd
      by_cases hk : k = a
      · simp [setA, hk, lookupA]
      · simp [setA, hk, lookupA, ih]

theorem lookupA_setA_ne {β : Type} (l : List (Addr × β)) (a b : Addr) (v : β)
    (h : b ≠ a) : lookupA (setA l a v) b = lookupA l b := by
  induction l with
  | nil => simp [setA, lookupA, Ne.symm h]
  | cons hd tl ih =>
      obtain ⟨k, w⟩ := hd
      by_cases hk : k = a
      · subst hk
        simp [setA, lookupA, Ne.symm h]
      · simp [setA, hk, lookupA, ih]

theorem mem_keysOf_of_lookupA {β : Type} (l : List (Addr × β)) (a : Addr)
    (v : β) (h : lookupA l a = some v) : a ∈ keysOf l := by
  induction l with
  | nil => simp [lookupA] at h
  | cons hd tl ih =>
      obtain ⟨k, w⟩ := hd
      by_cases hk : k = a
      · simp [keysOf, hk]
      · simp only [lookupA, if_neg hk] at h
        simp only [keysOf, List.mem_cons]
        exact Or.inr (ih h)

theorem lookupA_eq_none_of_not_mem {β : Type} (l : List (Addr × β)) (a : Addr)
    (h : a ∉ keysOf l) : lookupA l a = none := by
  cases hl : lookupA l a with
  | none => rfl
  | some v => exact absurd (mem_keysOf_of_lookupA l a v hl) h

theorem mem_keysOf_setA {β : Type} (l : List (Addr × β)) (a b : Addr) (v : β)
    (h : b ∈ keysOf (setA l a v)) : b = a ∨ b ∈ keysOf l := by
  induction l with
  | nil =>
      simp [setA, keysOf] at h
      exact Or.inl h
  | cons hd tl ih =>
      obtain ⟨k, w⟩ := hd
      by_cases hk : k = a
      · subst hk
        simp only [setA, if_pos rfl, keysOf, List.mem_cons] at h ⊢
        tauto
      · simp only [setA, if_neg hk, keysOf, List.mem_cons] at h ⊢
        rcases h with h | h
        · tauto
        · rcases ih h with h2 | h2 <;> tauto

theorem nodup_keysOf_setA {β : Type} (l : List (Addr × β)) (a : Addr) (v : β)
    (h : (keysOf l).Nodup) : (keysOf (setA l a v)).Nodup := by
  induction l with
  | nil => simp [setA, keysOf]
  | cons hd tl ih =>
      obtain ⟨k, w⟩ := hd
      simp only [keysOf, List.nodup_cons] at h
      obtain ⟨hknotin, htl⟩ := h
      by_cases hk : k = a
      · subst hk
        simp only [setA, if_pos rfl, keysOf, List.nodup_cons]
        exact ⟨hknotin, htl⟩
      · simp only [setA, if_neg hk, keysOf, List.nodup_cons]
        refine ⟨fun hmem => ?_, ih htl⟩
        rcases mem_keysOf_setA tl a k v hmem with h2 | h2
        · exact hk h2
        · exact hknotin h2

/-! ### Characterization of the monitor operations -/

theorem ensureCache_logs (now : Int) (s : SMState) (a : Addr) :
    (ensureCache now s a).clearErrCountLog = s.clearErrCountLog
    ∧ (ensureCache now s a).signalLog = s.signalLog
    ∧ (ensureCache now s a).smgrClearLog = s.smgrClearLog := by
  unfold ensureCache cache
  cases h : lookupA s.senders a with
  | none =>
      simp only [h, Option.isNone_none, if_true]
      split <;> simp
  | some r => simp [h]

theorem lookupA_ensureCache (now : Int) (s : SMState) (a b : Addr) :
    lookupA (ensureCache now s a).senders b =
      if b = a then some { pendingAmount := pendingOf s a, ticketsQueued := ticketsOf s a, lastAccess := now }
      else lookupA s.senders b := by
  unfold ensureCache cache
  cases h : lookupA s.senders a with
  | none =>
      simp only [h, Option.isNone_none, if_true, lookupA_setA_self]
      by_cases hb : b = a
      · subst hb
        simp [lookupA_setA_self, pendingOf, ticketsOf, h]
      · simp [hb, lookupA_setA_ne _ _ _ _ hb]
  | some r =>
      simp only [h, Option.isNone_some, if_false]
      by_cases hb : b = a
      · subst hb
        simp [h, lookupA_setA_self, pendingOf, ticketsOf]
      · simp [h, hb, lookupA_setA_ne _ _ _ _ hb]

theorem pendingOf_ensureCache (now : Int) (s : SMState) (a : Addr) :
    pendingOf (ensureCache now s a) a = pendingOf s a := by
  simp [pendingOf, lookupA_ensureCache]

theorem MaxFloat_eq (env : ExtEnv) (claimant : Addr) (now : Int) (s : SMState)
    (a : Addr) :
    MaxFloat env claimant now s a =
      (ensureCache now s a,
       match reserveAlloc env claimant a with
       | .error e => .error e
       | .ok ra => .ok (ra - pendingOf s a)) := by
  simp only [MaxFloat, maxFloat, pendingOf_ensureCache]

theorem SubFloat_eq (now : Int) (s : SMState) (a : Addr) (x : Int) :
    SubFloat now s a x =
      { senders := setA (ensureCache now s a).senders a { pendingAmount := pendingOf s a + x, ticketsQueued := ticketsOf s a, lastAccess := now },
        clearErrCountLog := a :: s.clearErrCountLog,
        signalLog := s.signalLog,
        smgrClearLog := s.smgrClearLog } := by
  obtain ⟨h1, h2, h3⟩ := ensureCache_logs now s a
  have hlook := lookupA_ensureCache now s a a
  rw [if_pos rfl] at hlook
  simp only [SubFloat, hlook, h1, h2, h3]

theorem QueueTicket_eq (now : Int) (s : SMState) (a : Addr) (t : SignedTicket) :
    QueueTicket now s a t =
      { senders := setA (ensureCache now s a).senders a { pendingAmount := pendingOf s a, ticketsQueued := ticketsOf s a ++ [t], lastAccess := now },
        clearErrCountLog := s.clearErrCountLog,
        signalLog := s.signalLog,
        smgrClearLog := s.smgrClearLog } := by
  obtain ⟨h1, h2, h3⟩ := ensureCache_logs now s a
  have hlook := lookupA_ensureCache now s a a
  rw [if_pos rfl] at hlook
  simp only [QueueTicket, hlook, h1, h2, h3]

theorem AddFloat_fail (env : ExtEnv) (claimant : Addr) (now : Int)
    (s : SMState) (a : Addr) (y : Int) (h : pendingOf s a < y) :
    AddFloat env claimant now s a y =
      (ensureCache now s a, some insufficientPendingErr) := by
  have hlook := lookupA_ensureCache now s a a
  rw [if_pos rfl] at hlook
  simp only [AddFloat, hlook]
  rw [if_pos h]

theorem AddFloat_pass (env : ExtEnv) (claimant : Addr) (now : Int)
    (s : SMState) (a : Addr) (y : Int) (h : y ≤ pendingOf s a) :
    AddFloat env claimant now s a y =
      (let s3 : SMState :=
        { senders := setA (ensureCache now s a).senders a { pendingAmount := pendingOf s a - y, ticketsQueued := ticketsOf s a, lastAccess := now },
          clearErrCountLog := a :: s.clearErrCountLog,
          signalLog := s.signalLog,
          smgrClearLog := s.smgrClearLog }
       match reserveAlloc env claimant a with
       | .error e => (s3, some e)
       | .ok ra => ({ s3 with signalLog := (a, ra - (pendingOf s a - y)) :: s.signalLog }, none)) := by
  obtain ⟨h1, h2, h3⟩ := ensureCache_logs now s a
  have hlook := lookupA_ensureCache now s a a
  rw [if_pos rfl] at hlook
  simp only [AddFloat, hlook]
  rw [if_neg (not_lt.mpr h)]
  simp only [maxFloat, pendingOf, lookupA_setA_self, h1, h2, h3]
  cases hra : reserveAlloc env claimant a <;> simp

theorem pendingOf_SubFloat (now : Int) (s : SMState) (a : Addr) (x : Int) :
    pendingOf (SubFloat now s a x) a = pendingOf s a + x := by
  rw [SubFloat_eq]
  simp [pendingOf, lookupA_setA_self]

theorem pendingOf_AddFloat_pass (env : ExtEnv) (claimant : Addr) (now : Int)
    (s : SMState) (a : Addr) (y : Int) (h : y ≤ pendingOf s a) :
    pendingOf (AddFloat env claimant now s a y).1 a = pendingOf s a - y := by
  rw [AddFloat_pass env claimant now s a y h]
  cases hra : reserveAlloc env claimant a <;>
    simp [hra, pendingOf, lookupA_setA_self]

/-! ### Interleavings of SubFloat and AddFloat -/

/-- An operation in an interleaving of `SubFloat` and `AddFloat` calls on a
fixed sender. -/
inductive FloatOp where
  | sub (x : Int)
  | add (y : Int)
deriving DecidableEq

/-- The amount argument of a float operation. -/
def FloatOp.amount : FloatOp → Int
  | .sub x => x
  | .add y => y

/-- Total amount passed to `SubFloat` in a sequence. -/
def subSum : List FloatOp → Int
  | [] => 0
  | .sub x :: rest => x + subSum rest
  | .add _ :: rest => subSum rest

/-- Total amount passed to `AddFloat` in a sequence. -/
def addSum : List FloatOp → Int
  | [] => 0
  | .sub _ :: rest => addSum rest
  | .add y :: rest => y + addSum rest

/-- Run an interleaving of `SubFloat` / `AddFloat` calls on sender `addr`. -/
def runFloatOps (env : ExtEnv) (claimant : Addr) (now : Int) (addr : Addr) :
    SMState → List FloatOp → SMState
  | s, [] => s
  | s, .sub x :: rest =>
      runFloatOps env claimant now addr (SubFloat now s addr x) rest
  | s, .add y :: rest =>
      runFloatOps env claimant now addr ((AddFloat env claimant now s addr y).1) rest

theorem pendingOf_runFloatOps (env : ExtEnv) (claimant : Addr) (now : Int)
    (addr : Addr) :
    ∀ (ops : List FloatOp) (s : SMState),
      (∀ n : Nat, addSum (ops.take n) ≤ pendingOf s addr + subSum (ops.take n)) →
      pendingOf (runFloatOps env claimant now addr s ops) addr
        = pendingOf s addr + (subSum ops - addSum ops)
  | [], s, _ => by simp [runFloatOps, subSum, addSum]
  | .sub x :: rest, s, h => by
      have hrest : ∀ n : Nat,
          addSum (rest.take n)
            ≤ pendingOf (SubFloat now s addr x) addr + subSum (rest.take n) := by
        intro n
        have h2 := h (n + 1)
        rw [List.take_succ_cons] at h2
        simp only [addSum, subSum] at h2
        rw [pendingOf_SubFloat]
        linarith
      have hrec := pendingOf_runFloatOps env claimant now addr rest
        (SubFloat now s addr x) hrest
      simp only [runFloatOps, hrec, pendingOf_SubFloat, subSum, addSum]
      ring
  | .add y :: rest, s, h => by
      have hy : y ≤ pendingOf s addr := by
        have h2 := h 1
        simp only [List.take_succ_cons, List.take_zero, addSum, subSum] at h2
        linarith
      have hrest : ∀ n : Nat,
          addSum (rest.take n)
            ≤ pendingOf (AddFloat env claimant now s addr y).1 addr
              + subSum (rest.take n) := by
        intro n
        have h2 := h (n + 1)
        rw [List.take_succ_cons] at h2
        simp only [addSum, subSum] at h2
        rw [pendingOf_AddFloat_pass env claimant now s addr y hy]
        linarith
      have hrec := pendingOf_runFloatOps env claimant now addr rest
        ((AddFloat env claimant now s addr y).1) hrest
      simp only [runFloatOps, hrec,
        pendingOf_AddFloat_pass env claimant now s addr y hy, subSum, addSum]
      ring

/-! ### Sequences of arbitrary public operations -/

/-- A public monitor operation together with the `unixNow` time at which it
is invoked (the clock is injectable in the source). -/
inductive MonOp where
  | queueTicket (now : Int) (addr : Addr) (t : SignedTicket)
  | subFloat (now : Int) (addr : Addr) (x : Int)
  | addFloat (now : Int) (addr : Addr) (y : Int)
  | maxFloat (now : Int) (addr : Addr)
deriving DecidableEq

/-- The amount argument of an operation (0 for the amount-less ones). -/
def MonOp.amount : MonOp → Int
  | .subFloat _ _ x => x
  | .addFloat _ _ y => y
  | _ => 0

/-- The sender address an operation touches. -/
def MonOp.addr : MonOp → Addr
  | .queueTicket _ a _ => a
  | .subFloat _ a _ => a
  | .addFloat _ a _ => a
  | .maxFloat _ a => a

/-- The time at which an operation runs. -/
def MonOp.time : MonOp → Int
  | .queueTicket n _ _ => n
  | .subFloat n _ _ => n
  | .addFloat n _ _ => n
  | .maxFloat n _ => n

/-- Apply one public operation (any returned value is discarded). -/
def applyMonOp (env : ExtEnv) (claimant : Addr) (s : SMState) : MonOp → SMState
  | .queueTicket now a t => QueueTicket now s a t
  | .subFloat now a x => SubFloat now s a x
  | .addFloat now a y => (AddFloat env claimant now s a y).1
  | .maxFloat now a => (MaxFloat env claimant now s a).1

/-- Run a sequence of public operations. -/
def runMonOps (env : ExtEnv) (claimant : Addr) : SMState → List MonOp → SMState
  | s, [] => s
  | s, op :: rest => runMonOps env claimant (applyMonOp env claimant s op) rest

theorem lookupA_SubFloat (now : Int) (s : SMState) (a : Addr) (x : Int)
    (b : Addr) :
    lookupA (SubFloat now s a x).senders b =
      if b = a then some { pendingAmount := pendingOf s a + x, ticketsQueued := ticketsOf s a, lastAccess := now }
      else lookupA s.senders b := by
  rw [SubFloat_eq]
  by_cases hb : b = a
  · subst hb
    simp [lookupA_setA_self]
  · simp [hb, lookupA_setA_ne _ _ _ _ hb, lookupA_ensureCache]

theorem lookupA_QueueTicket (now : Int) (s : SMState) (a : Addr)
    (t : SignedTicket) (b : Addr) :
    lookupA (QueueTicket now s a t).senders b =
      if b = a then some { pendingAmount := pendingOf s a, ticketsQueued := ticketsOf s a ++ [t], lastAccess := now }
      else lookupA s.senders b := by
  rw [QueueTicket_eq]
  by_cases hb : b = a
  · subst hb
    simp [lookupA_setA_self]
  · simp [hb, lookupA_setA_ne _ _ _ _ hb, lookupA_ensureCache]

theorem lookupA_AddFloat (env : ExtEnv) (claimant : Addr) (now : Int)
    (s : SMState) (a : Addr) (y : Int) (b : Addr) :
    lookupA ((AddFloat env claimant now s a y).1).senders b =
      if b = a then some { pendingAmount := if pendingOf s a < y then pendingOf s a else pendingOf s a - y, ticketsQueued := ticketsOf s a, lastAccess := now }
      else lookupA s.senders b := by
  by_cases hy : pendingOf s a < y
  · rw [AddFloat_fail env claimant now s a y hy]
    simp [lookupA_ensureCache, hy]
  · rw [AddFloat_pass env claimant now s a y (not_lt.mp hy)]
    by_cases hb : b = a
    · subst hb
      cases hra : reserveAlloc env claimant b <;>
        simp [hra, lookupA_setA_self, hy]
    · cases hra : reserveAlloc env claimant a <;>
        simp [hra, hb, lookupA_setA_ne _ _ _ _ hb, lookupA_ensureCache]

theorem lookupA_MaxFloat (env : ExtEnv) (claimant : Addr) (now : Int)
    (s : SMState) (a : Addr) (b : Addr) :
    lookupA ((MaxFloat env claimant now s a).1).senders b =
      if b = a then some { pendingAmount := pendingOf s a, ticketsQueued := ticketsOf s a, lastAccess := now }
      else lookupA s.senders b := by
  rw [MaxFloat_eq]
  simp [lookupA_ensureCache]

/-- Invariant 1 of the spec: every tracked sender has a non-negative
pending amount. -/
def PendingNonneg (s : SMState) : Prop :=
  ∀ a r, lookupA s.senders a = some r → 0 ≤ r.pendingAmount

theorem pendingNonneg_applyMonOp (env : ExtEnv) (claimant : Addr)
    (s : SMState) (op : MonOp) (hop : 0 ≤ op.amount)
    (h : PendingNonneg s) : PendingNonneg (applyMonOp env claimant s op) := by
  have hp : ∀ c : Addr, 0 ≤ pendingOf s c := by
    intro c
    unfold pendingOf
    cases hl : lookupA s.senders c with
    | none => simp
    | some r => exact h _ _ hl
  intro b rb hb
  cases op with
  | queueTicket now a t =>
      simp only [applyMonOp, lookupA_QueueTicket] at hb
      by_cases hba : b = a
      · rw [if_pos hba] at hb
        cases hb
        simpa using hp a
      · rw [if_neg hba] at hb
        exact h _ _ hb
  | subFloat now a x =>
      simp only [applyMonOp, lookupA_SubFloat] at hb
      by_cases hba : b = a
      · rw [if_pos hba] at hb
        cases hb
        have := hp a
        simp only [MonOp.amount] at hop
        simp only []
        linarith
      · rw [if_neg hba] at hb
        exact h _ _ hb
  | addFloat now a y =>
      simp only [applyMonOp, lookupA_AddFloat] at hb
      by_cases hba : b = a
      · rw [if_pos hba] at hb
        cases hb
        by_cases hy : pendingOf s a < y
        · simpa [hy] using hp a
        · have := not_lt.mp hy
          simp only [if_neg hy]
          linarith
      · rw [if_neg hba] at hb
        exact h _ _ hb
  | maxFloat now a =>
      simp only [applyMonOp, lookupA_MaxFloat] at hb
      by_cases hba : b = a
      · rw [if_pos hba] at hb
        cases hb
        simpa using hp a
      · rw [if_neg hba] at hb
        exact h _ _ hb

theorem pendingNonneg_runMonOps (env : ExtEnv) (claimant : Addr) :
    ∀ (ops : List MonOp) (s : SMState), (∀ op ∈ ops, 0 ≤ op.amount) →
      PendingNonneg s → PendingNonneg (runMonOps env claimant s ops)
  | [], s, _, h => by simpa [runMonOps] using h
  | op :: rest, s, hnn, h => by
      have h1 := pendingNonneg_applyMonOp env claimant s op (hnn op (by simp)) h
      have h2 := pendingNonneg_runMonOps env claimant rest
        (applyMonOp env claimant s op) (fun o ho => hnn o (by simp [ho])) h1
      simpa [runMonOps] using h2

/-! ### Cleanup lemmas -/

theorem mem_keysOf_cleanupSenders (ttl now : Int)
    (l : List (Addr × remoteSender)) (b : Addr)
    (h : b ∈ keysOf (cleanupSenders ttl now l).1) : b ∈ keysOf l := by
  induction l with
  | nil => simp [cleanupSenders, keysOf] at h
  | cons hd tl ih =>
      obtain ⟨k, v⟩ := hd
      simp only [cleanupSenders] at h
      by_cases hc : ttl < now - v.lastAccess
      · rw [if_pos hc] at h
        simp only [keysOf, List.mem_cons]
        exact Or.inr (ih h)
      · rw [if_neg hc] at h
        simp only [keysOf, List.mem_cons] at h ⊢
        rcases h with h | h
        · exact Or.inl h
        · exact Or.inr (ih h)

theorem mem_cleared_cleanupSenders (ttl now : Int)
    (l : List (Addr × remoteSender)) (b : Addr)
    (h : b ∈ (cleanupSenders ttl now l).2) : b ∈ keysOf l := by
  induction l with
  | nil => simp [cleanupSenders] at h
  | cons hd tl ih =>
      obtain ⟨k, v⟩ := hd
      simp only [cleanupSenders] at h
      by_cases hc : ttl < now - v.lastAccess
      · rw [if_pos hc] at h
        simp only [keysOf, List.mem_cons]
        rcases List.mem_cons.mp h with h | h
        · exact Or.inl h
        · exact Or.inr (ih h)
      · rw [if_neg hc] at h
        simp only [keysOf, List.mem_cons]
        exact Or.inr (ih h)

theorem cleanupSenders_keep (ttl now : Int) (l : List (Addr × remoteSender))
    (a : Addr) (r : remoteSender) (hl : lookupA l a = some r)
    (hfresh : now - r.lastAccess ≤ ttl) :
    lookupA (cleanupSenders ttl now l).1 a = some r := by
  induction l with
  | nil => simp [lookupA] at hl
  | cons hd tl ih =>
      obtain ⟨k, v⟩ := hd
      by_cases hk : k = a
      · simp only [lookupA, if_pos hk] at hl
        obtain rfl := Option.some.inj hl
        simp only [cleanupSenders]
        rw [if_neg (not_lt.mpr hfresh)]
        simp [lookupA, hk]
      · simp only [lookupA, if_neg hk] at hl
        simp only [cleanupSenders]
        by_cases hc : ttl < now - v.lastAccess
        · rw [if_pos hc]
          exact ih hl
        · rw [if_neg hc]
          simp only [lookupA, if_neg hk]
          exact ih hl

theorem cleanupSenders_evict (ttl now : Int) (l : List (Addr × remoteSender))
    (a : Addr) (r : remoteSender) (hnd : (keysOf l).Nodup)
    (hl : lookupA l a = some r) (hexp : ttl < now - r.lastAccess) :
    lookupA (cleanupSenders ttl now l).1 a = none
    ∧ a ∈ (cleanupSenders ttl now l).2 := by
  induction l with
  | nil => simp [lookupA] at hl
  | cons hd tl ih =>
      obtain ⟨k, v⟩ := hd
      simp only [keysOf, List.nodup_cons] at hnd
      obtain ⟨hknotin, hndtl⟩ := hnd
      by_cases hk : k = a
      · rw [hk] at hknotin
        simp only [lookupA, if_pos hk] at hl
        obtain rfl := Option.some.inj hl
        simp only [cleanupSenders]
        rw [if_pos hexp]
        constructor
        · exact lookupA_eq_none_of_not_mem _ _
            (fun hmem => hknotin (mem_keysOf_cleanupSenders ttl now tl a hmem))
        · simp [hk]
      · simp only [lookupA, if_neg hk] at hl
        have hih := ih hndtl hl
        simp only [cleanupSenders]
        by_cases hc : ttl < now - v.lastAccess
        · rw [if_pos hc]
          exact ⟨hih.1, by simp [hih.2]⟩
        · rw [if_neg hc]
          refine ⟨?_, hih.2⟩
          simp only [lookupA, if_neg hk]
          exact hih.1

theorem not_mem_cleared_of_fresh (ttl now : Int)
    (l : List (Addr × remoteSender)) (a : Addr) (r : remoteSender)
    (hnd : (keysOf l).Nodup) (hl : lookupA l a = some r)
    (hfresh : now - r.lastAccess ≤ ttl) :
    a ∉ (cleanupSenders ttl now l).2 := by
  induction l with
  | nil => simp [lookupA] at hl
  | cons hd tl ih =>
      obtain ⟨k, v⟩ := hd
      simp only [keysOf, List.nodup_cons] at hnd
      obtain ⟨hknotin, hndtl⟩ := hnd
      by_cases hk : k = a
      · rw [hk] at hknotin
        simp only [lookupA, if_pos hk] at hl
        obtain rfl := Option.some.inj hl
        simp only [cleanupSenders]
        rw [if_neg (not_lt.mpr hfresh)]
        exact fun hmem => hknotin (mem_cleared_cleanupSenders ttl now tl a hmem)
      · simp only [lookupA, if_neg hk] at hl
        have hih := ih hndtl hl
        simp only [cleanupSenders]
        by_cases hc : ttl < now - v.lastAccess
        · rw [if_pos hc]
          intro hmem
          rcases List.mem_cons.mp hmem with h | h
          · exact hk h.symm
          · exact hih h
        · rw [if_neg hc]
          exact hih

/-! ### The external caching sender-info source (spec-modelled) -/

/-- Modelled from the spec: the repository's caching `SenderManager`
implementation (the "sender-info source") is not among the provided sources;
only its interface is.  Per the spec it caches chain state per address:
`GetSenderInfo` returns the cached snapshot when present and otherwise reads
and caches the backing (on-chain) state, and `Clear(addr)` drops the cached
entry so that "a subsequent access refetches external state". -/
structure CachingSenderManager where
  backing : Addr → SenderInfo
  cachedInfo : List (Addr × SenderInfo)

/-- Modelled from the spec: a cached read of a sender's info. -/
def CachingSenderManager.getSenderInfo (m : CachingSenderManager) (a : Addr) :
    CachingSenderManager × SenderInfo :=
  match lookupA m.cachedInfo a with
  | some i => (m, i)
  | none =>
      ({ m with cachedInfo := setA m.cachedInfo a (m.backing a) }, m.backing a)

/-- Modelled from the spec: `SenderManager.Clear(addr)` drops the cached
entry for `addr`. -/
def CachingSenderManager.clear (m : CachingSenderManager) (a : Addr) :
    CachingSenderManager :=
  { m with cachedInfo := m.cachedInfo.filter (fun kv => decide (kv.1 ≠ a)) }

/-- Replace the backing (on-chain) state, e.g. after a reserve change. -/
def CachingSenderManager.setBacking (m : CachingSenderManager)
    (f : Addr → SenderInfo) : CachingSenderManager :=
  { m with backing := f }

/-- A monitor together with its caching sender-info source. -/
structure CombinedState where
  mon : SMState
  smgr : CachingSenderManager

/-- `senderMonitor.MaxFloat` with the caching sender-info source threaded
through: `ensureCache`, then `reserveAlloc` reading `GetSenderInfo` from the
cache (`reserveAllocOf` is the arithmetic of the source) minus the pending
amount.  `claimedVal` and `poolSize` are the remaining fixed collaborator
reads. -/
def MaxFloatC (claimedVal : Addr → Addr → Int) (poolSize : Int)
    (claimant : Addr) (now : Int) (st : CombinedState) (addr : Addr) :
    CombinedState × Except Err Int :=
  let mon1 := ensureCache now st.mon addr
  let res := st.smgr.getSenderInfo addr
  (⟨mon1, res.1⟩,
    match reserveAllocOf (.ok res.2) (claimedVal addr claimant) poolSize with
    | .error e => .error e
    | .ok ra => .ok (ra - pendingOf mon1 addr))

/-- `senderMonitor.cleanup` with the caching sender-info source threaded
through: every evicted address is also `Clear`ed on the source. -/
def cleanupC (ttl now : Int) (st : CombinedState) : CombinedState :=
  let res := cleanupSenders ttl now st.mon.senders
  ⟨{ st.mon with senders := res.1, smgrClearLog := res.2 ++ st.mon.smgrClearLog },
   res.2.foldl (fun m k => m.clear k) st.smgr⟩

theorem lookupA_filter_ne {β : Type} (l : List (Addr × β)) (a b : Addr)
    (h : a ≠ b) :
    lookupA (l.filter (fun kv => decide (kv.1 ≠ b))) a = lookupA l a := by
  induction l with
  | nil => simp [lookupA]
  | cons hd tl ih =>
      obtain ⟨k, v⟩ := hd
      by_cases hkb : k = b
      · have hka : ¬k = a := by rw [hkb]; exact Ne.symm h
        rw [List.filter_cons_of_neg (by simp [hkb])]
        rw [ih]
        simp [lookupA, hka]
      · rw [List.filter_cons_of_pos (by simp [hkb])]
        simp only [lookupA]
        rw [ih]

theorem lookupA_clear_ne (m : CachingSenderManager) (a b : Addr) (h : a ≠ b) :
    lookupA (m.clear b).cachedInfo a = lookupA m.cachedInfo a :=
  lookupA_filter_ne m.cachedInfo a b h

theorem lookupA_foldl_clear (L : List Addr) :
    ∀ (m : CachingSenderManager) (a : Addr), a ∉ L →
      lookupA (L.foldl (fun m k => m.clear k) m).cachedInfo a
        = lookupA m.cachedInfo a := by
  induction L with
  | nil => intro m a _; rfl
  | cons hd tl ih =>
      intro m a ha
      simp only [List.mem_cons, not_or] at ha
      rw [List.foldl_cons, ih (m.clear hd) a ha.2,
        lookupA_clear_ne m a hd ha.1]

/-! ### Remaining helper lemmas -/

theorem AddFloat_snd (env : ExtEnv) (claimant : Addr) (now : Int)
    (s : SMState) (a : Addr) (y : Int) :
    (AddFloat env claimant now s a y).2 =
      if pendingOf s a < y then some insufficientPendingErr
      else match reserveAlloc env claimant a with
           | .error e => some e
           | .ok _ => none := by
  by_cases hy : pendingOf s a < y
  · rw [AddFloat_fail env claimant now s a y hy, if_pos hy]
  · rw [AddFloat_pass env claimant now s a y (not_lt.mp hy), if_neg hy]
    cases hra : reserveAlloc env claimant a <;> simp [hra]

theorem clearLog_SubFloat (now : Int) (s : SMState) (a : Addr) (x : Int) :
    (SubFloat now s a x).clearErrCountLog = a :: s.clearErrCountLog := by
  rw [SubFloat_eq]

theorem clearLog_AddFloat_pass (env : ExtEnv) (claimant : Addr) (now : Int)
    (s : SMState) (a : Addr) (y : Int) (h : y ≤ pendingOf s a) :
    ((AddFloat env claimant now s a y).1).clearErrCountLog
      = a :: s.clearErrCountLog := by
  rw [AddFloat_pass env claimant now s a y h]
  cases hra : reserveAlloc env claimant a <;> simp [hra]

theorem cleanup_senders (ttl now : Int) (s : SMState) :
    (cleanup ttl now s).senders = (cleanupSenders ttl now s.senders).1 := rfl

theorem cleanup_clearLog (ttl now : Int) (s : SMState) :
    (cleanup ttl now s).smgrClearLog
      = (cleanupSenders ttl now s.senders).2 ++ s.smgrClearLog := rfl

theorem applyMonOp_record (env : ExtEnv) (claimant : Addr) (s : SMState)
    (op : MonOp) :
    ∃ r : remoteSender,
      lookupA (applyMonOp env claimant s op).senders op.addr = some r
      ∧ r.lastAccess = op.time := by
  cases op with
  | queueTicket now a t =>
      exact ⟨{ pendingAmount := pendingOf s a, ticketsQueued := ticketsOf s a ++ [t], lastAccess := now },
        by simp [applyMonOp, MonOp.addr, lookupA_QueueTicket], rfl⟩
  | subFloat now a x =>
      exact ⟨{ pendingAmount := pendingOf s a + x, ticketsQueued := ticketsOf s a, lastAccess := now },
        by simp [applyMonOp, MonOp.addr, lookupA_SubFloat], rfl⟩
  | addFloat now a y =>
      exact ⟨{ pendingAmount := if pendingOf s a < y then pendingOf s a else pendingOf s a - y, ticketsQueued := ticketsOf s a, lastAccess := now },
        by simp [applyMonOp, MonOp.addr, lookupA_AddFloat], rfl⟩
  | maxFloat now a =>
      exact ⟨{ pendingAmount := pendingOf s a, ticketsQueued := ticketsOf s a, lastAccess := now },
        by simp [applyMonOp, MonOp.addr, lookupA_MaxFloat], rfl⟩

/-! ### Concrete environments used by the witnesses -/

/-- SenderInfo of scenario S1: reserve 500. -/
def infoA : SenderInfo :=
  { deposit := 500, withdrawBlock := 0, reserve := 500, reserveState := .notFrozen, thawRound := 0 }

/-- SenderInfo after a reserve change (scenario S5/S6): reserve 1000. -/
def infoB : SenderInfo :=
  { deposit := 500, withdrawBlock := 0, reserve := 1000, reserveState := .notFrozen, thawRound := 0 }

/-- Stub environment of scenario S1: reserve 500, pool size 50, claimed
reserve 100, no errors. -/
def envS1 : ExtEnv :=
  { getSenderInfo := fun _ => .ok infoA,
    claimedReserveVal := fun _ _ => 100,
    claimedReserveErr := fun _ _ => none,
    poolSize := 50 }

/-- Environment in which `GetSenderInfo` fails. -/
def envGetErr : ExtEnv :=
  { getSenderInfo := fun _ => .error "GetSenderInfo error",
    claimedReserveVal := fun _ _ => 0,
    claimedReserveErr := fun _ _ => none,
    poolSize := 50 }

/-- Environment in which `ClaimedReserve` reports an error while
`GetSenderInfo` succeeds and the pool size is non-zero. -/
def envClaimedErr : ExtEnv :=
  { getSenderInfo := fun _ => .ok infoA,
    claimedReserveVal := fun _ _ => 0,
    claimedReserveErr := fun _ _ => some "ClaimedReserve error",
    poolSize := 50 }

/-- Environment with pool size zero and a failing `GetSenderInfo`. -/
def envPoolZeroErr : ExtEnv :=
  { getSenderInfo := fun _ => .error "GetSenderInfo error",
    claimedReserveVal := fun _ _ => 0,
    claimedReserveErr := fun _ _ => none,
    poolSize := 0 }

/-- Environment with pool size zero and a successful `GetSenderInfo`. -/
def envPoolZero : ExtEnv :=
  { getSenderInfo := fun _ => .ok infoA,
    claimedReserveVal := fun _ _ => 100,
    claimedReserveErr := fun _ _ => none,
    poolSize := 0 }

/-! ### The claims -/

/-- C1: starting from a sender with no record, after any interleaving of
`SubFloat(addr, x_i)` and `AddFloat(addr, y_j)` calls whose amounts are
non-negative and whose running `AddFloat` total never exceeds the running
`SubFloat` total, `MaxFloat(addr)` returns `reserveAlloc(addr)` minus the
net `∑ x_i − ∑ y_j`: the pending amount is exactly that net. -/
theorem floatAlgebra (env : ExtEnv) (claimant : Addr) (now : Int)
    (addr : Addr) (s0 : SMState) (ops : List FloatOp) (r : Int)
    (hfresh : lookupA s0.senders addr = none)
    (_hnn : ∀ op ∈ ops, 0 ≤ op.amount)
    (hpre : ∀ n : Nat, addSum (ops.take n) ≤ subSum (ops.take n))
    (halloc : reserveAlloc env claimant addr = .ok r) :
    (MaxFloat env claimant now (runFloatOps env claimant now addr s0 ops) addr).2
      = .ok (r - (subSum ops - addSum ops)) := by
  have hp0 : pendingOf s0 addr = 0 := by simp [pendingOf, hfresh]
  have hrun := pendingOf_runFloatOps env claimant now addr ops s0
    (by intro n; rw [hp0]; simpa using hpre n)
  rw [MaxFloat_eq, halloc]
  rw [hrun, hp0]
  norm_num

/-- Witness for `floatAlgebra`: two SubFloat(5) then AddFloat(4) on a fresh
sender in the S1 environment gives MaxFloat = −90 − (10 − 4) = −96. -/
theorem floatAlgebra_witness :
    (MaxFloat envS1 7 0 (runFloatOps envS1 7 0 1 initState [FloatOp.sub 5, FloatOp.sub 5, FloatOp.add 4]) 1).2
      = .ok (-96) := by
  have h := floatAlgebra envS1 7 0 1 initState
    [FloatOp.sub 5, FloatOp.sub 5, FloatOp.add 4] (-90)
    rfl
    (by intro op hop
        simp only [List.mem_cons, List.not_mem_nil, or_false] at hop
        rcases hop with rfl | rfl | rfl <;> decide)
    (by intro n
        rcases n with _ | _ | _ | n <;>
          simp [List.take_succ_cons, List.take_zero, List.take_nil, addSum, subSum])
    (by rfl)
  rw [h]
  norm_num [subSum, addSum]

/-- C3: if `amount` strictly exceeds the sender's current pending amount,
`AddFloat` returns the insufficient-pending error, the pending amount keeps
its prior value, and no max-float signal is emitted. -/
theorem addFloatGuard (env : ExtEnv) (claimant : Addr) (now : Int)
    (s : SMState) (addr : Addr) (amount : Int)
    (h : pendingOf s addr < amount) :
    (AddFloat env claimant now s addr amount).2 = some insufficientPendingErr
    ∧ pendingOf (AddFloat env claimant now s addr amount).1 addr = pendingOf s addr
    ∧ ((AddFloat env claimant now s addr amount).1).signalLog = s.signalLog := by
  rw [AddFloat_fail env claimant now s addr amount h]
  exact ⟨rfl, pendingOf_ensureCache now s addr, (ensureCache_logs now s addr).2.1⟩

/-- Witness for `addFloatGuard`: scenario S7, AddFloat(10) on a fresh
sender. -/
theorem addFloatGuard_witness :
    (AddFloat envS1 7 0 initState 1 10).2 = some insufficientPendingErr
    ∧ pendingOf (AddFloat envS1 7 0 initState 1 10).1 1 = pendingOf initState 1
    ∧ ((AddFloat envS1 7 0 initState 1 10).1).signalLog = initState.signalLog :=
  addFloatGuard envS1 7 0 initState 1 10 (by decide)

/-- C4: starting from a fresh monitor, after any finite sequence of public
operations whose amount arguments are non-negative, every tracked sender has
a non-negative pending amount. -/
theorem pendingNonneg (env : ExtEnv) (claimant : Addr) (ops : List MonOp)
    (hnn : ∀ op ∈ ops, 0 ≤ op.amount) :
    PendingNonneg (runMonOps env claimant initState ops) :=
  pendingNonneg_runMonOps env claimant ops initState hnn
    (fun a r h => by simp [initState, lookupA] at h)

/-- Witness for `pendingNonneg` on a small concrete schedule. -/
theorem pendingNonneg_witness :
    PendingNonneg (runMonOps envS1 7 initState
      [MonOp.subFloat 0 1 5, MonOp.addFloat 1 1 2, MonOp.maxFloat 2 1]) :=
  pendingNonneg envS1 7 _
    (by intro op hop
        simp only [List.mem_cons, List.not_mem_nil, or_false] at hop
        rcases hop with rfl | rfl | rfl <;> decide)

/-- C2 counterexample: with pool size 50 ≠ 0 and `ClaimedReserve` reporting
the error "ClaimedReserve error", `MaxFloat` and `AddFloat` succeed instead
of surfacing it: the source assigns the `ClaimedReserve` error but never
inspects it. -/
theorem claimedReserveErrorIgnored :
    envClaimedErr.claimedReserveErr 1 7 = some "ClaimedReserve error"
    ∧ envClaimedErr.poolSize = 50
    ∧ (MaxFloat envClaimedErr 7 0 initState 1).2 = .ok 10
    ∧ (AddFloat envClaimedErr 7 0 initState 1 0).2 = none :=
  ⟨rfl, rfl, by rfl, by rfl⟩

/-- C2 (amended): `GetSenderInfo` errors propagate verbatim through both
`MaxFloat` and `AddFloat` (the latter when its pending-amount guard passes),
while the `ClaimedReserve` error never influences either operation. -/
theorem externalReadErrors (env : ExtEnv) (claimant : Addr) (now : Int)
    (s : SMState) (addr : Addr) (amount : Int) (e : Err)
    (g : Addr → Addr → Option Err) :
    (env.getSenderInfo addr = .error e →
       (MaxFloat env claimant now s addr).2 = .error e
       ∧ (amount ≤ pendingOf s addr →
            (AddFloat env claimant now s addr amount).2 = some e))
    ∧ MaxFloat { env with claimedReserveErr := g } claimant now s addr
        = MaxFloat env claimant now s addr
    ∧ AddFloat { env with claimedReserveErr := g } claimant now s addr amount
        = AddFloat env claimant now s addr amount := by
  refine ⟨fun he => ⟨?_, fun hle => ?_⟩, rfl, rfl⟩
  · have hra : reserveAlloc env claimant addr = .error e := by
      simp [reserveAlloc, reserveAllocOf, he]
    rw [MaxFloat_eq, hra]
  · have hra : reserveAlloc env claimant addr = .error e := by
      simp [reserveAlloc, reserveAllocOf, he]
    rw [AddFloat_snd, if_neg (not_lt.mpr hle), hra]

/-- Witness for `externalReadErrors`: a failing `GetSenderInfo` surfaces its
error from both entry points. -/
theorem externalReadErrors_witness :
    (MaxFloat envGetErr 7 0 initState 1).2 = .error "GetSenderInfo error"
    ∧ (AddFloat envGetErr 7 0 initState 1 0).2 = some "GetSenderInfo error" :=
  ⟨((externalReadErrors envGetErr 7 0 initState 1 0 "GetSenderInfo error"
        (fun _ _ => none)).1 rfl).1,
   ((externalReadErrors envGetErr 7 0 initState 1 0 "GetSenderInfo error"
        (fun _ _ => none)).1 rfl).2 (by decide)⟩

/-- C5: a cleanup pass at time `now` evicts a record exactly when
`now − lastAccess > ttl`, and each evicted address is passed to
`smgr.Clear`; conversely every public operation stamps `lastAccess` with its
time, so a record touched within `ttl` of the next cleanup pass survives
it. -/
theorem ttlCleanupExclusion (env : ExtEnv) (claimant : Addr)
    (ttl now tc : Int) (s : SMState) (hnd : (keysOf s.senders).Nodup) :
    (∀ a rec, lookupA s.senders a = some rec →
       ((lookupA (cleanup ttl now s).senders a = none
           ↔ ttl < now - rec.lastAccess)
        ∧ (ttl < now - rec.lastAccess →
             a ∈ (cleanup ttl now s).smgrClearLog)))
    ∧ (∀ op : MonOp, tc - op.time ≤ ttl →
         (lookupA (applyMonOp env claimant s op).senders op.addr).map remoteSender.lastAccess = some op.time
         ∧ lookupA (cleanup ttl tc (applyMonOp env claimant s op)).senders op.addr ≠ none) := by
  constructor
  · intro a rec hl
    constructor
    · constructor
      · intro hnone
        by_contra hfresh
        have hkeep := cleanupSenders_keep ttl now s.senders a rec hl
          (by omega)
        rw [cleanup_senders, hkeep] at hnone
        exact Option.noConfusion hnone
      · intro hexp
        rw [cleanup_senders]
        exact (cleanupSenders_evict ttl now s.senders a rec hnd hl hexp).1
    · intro hexp
      rw [cleanup_clearLog]
      exact List.mem_append_left _
        (cleanupSenders_evict ttl now s.senders a rec hnd hl hexp).2
  · intro op htc
    obtain ⟨r, hr, hrt⟩ := applyMonOp_record env claimant s op
    refine ⟨by rw [hr]; simp [hrt], ?_⟩
    have hkeep := cleanupSenders_keep ttl tc
      (applyMonOp env claimant s op).senders op.addr r hr (by omega)
    rw [cleanup_senders, hkeep]
    exact Option.noConfusion

/-- Witness for `ttlCleanupExclusion`: a record last touched at t=0 is
evicted by a cleanup at t=3601 with ttl=3600, while a MaxFloat at t=0 keeps
the sender alive through a cleanup at t=3600. -/
theorem ttlCleanupExclusion_witness :
    (lookupA (cleanup 3600 3601 (SubFloat 0 initState 1 5)).senders 1 = none
       ↔ (3600 : Int) < 3601 - ({ pendingAmount := 5, ticketsQueued := [], lastAccess := 0 } : remoteSender).lastAccess)
    ∧ lookupA (cleanup 3600 3600 (applyMonOp envS1 7 (SubFloat 0 initState 1 5) (MonOp.maxFloat 0 1))).senders (MonOp.maxFloat 0 1).addr ≠ none := by
  have h := ttlCleanupExclusion envS1 7 3600 3601 3600
    (SubFloat 0 initState 1 5) (by decide)
  exact ⟨(h.1 1 { pendingAmount := 5, ticketsQueued := [], lastAccess := 0 }
            (by decide)).1,
         (h.2 (MonOp.maxFloat 0 1) (by decide)).2⟩

/-- C6 (spec-modelled caching sender-info source): if a sender's record
survives the cleanup tick because its last access is within `ttl`, then a
subsequent change of the backing reserve is invisible to the next
`MaxFloat`, which computes from the cached pre-change `SenderInfo`. -/
theorem maxFloatCachedAfterNonEviction (claimedVal : Addr → Addr → Int)
    (poolSize : Int) (claimant : Addr) (ttl tc t : Int) (st : CombinedState)
    (a : Addr) (i : SenderInfo) (rec : remoteSender) (f : Addr → SenderInfo)
    (hcache : lookupA st.smgr.cachedInfo a = some i)
    (hrec : lookupA st.mon.senders a = some rec)
    (hnd : (keysOf st.mon.senders).Nodup)
    (hfresh : tc - rec.lastAccess ≤ ttl) :
    (MaxFloatC claimedVal poolSize claimant t
        ⟨(cleanupC ttl tc st).mon, (cleanupC ttl tc st).smgr.setBacking f⟩ a).2
      = (match reserveAllocOf (.ok i) (claimedVal a claimant) poolSize with
         | .error e => .error e
         | .ok ra => .ok (ra - rec.pendingAmount)) := by
  have hkeep : lookupA (cleanupC ttl tc st).mon.senders a = some rec :=
    cleanupSenders_keep ttl tc st.mon.senders a rec hrec hfresh
  have hnotmem : a ∉ (cleanupSenders ttl tc st.mon.senders).2 :=
    not_mem_cleared_of_fresh ttl tc st.mon.senders a rec hnd hrec hfresh
  have hcache2 : lookupA ((cleanupC ttl tc st).smgr.setBacking f).cachedInfo a = some i := by
    show lookupA ((cleanupC ttl tc st).smgr).cachedInfo a = some i
    simp only [cleanupC]
    rw [lookupA_foldl_clear _ _ _ hnotmem, hcache]
  have hget : ((cleanupC ttl tc st).smgr.setBacking f).getSenderInfo a
      = ((cleanupC ttl tc st).smgr.setBacking f, i) := by
    simp only [CachingSenderManager.getSenderInfo, hcache2]
  have hpend : pendingOf (ensureCache t (cleanupC ttl tc st).mon a) a
      = rec.pendingAmount := by
    rw [pendingOf_ensureCache]
    simp [pendingOf, hkeep]
  simp only [MaxFloatC, hget, hpend]

/-- Concrete combined state for the `maxFloatCachedAfterNonEviction`
witness: sender 1 touched at t=0 with pending 5, `infoA` cached. -/
def stC6 : CombinedState :=
  ⟨SubFloat 0 initState 1 5,
   { backing := fun _ => infoA, cachedInfo := [(1, infoA)] }⟩

/-- Witness for `maxFloatCachedAfterNonEviction`: after a cleanup at
t=3600 (ttl 3600) and a backing change to reserve 1000, MaxFloat still
computes 500/50 − 100 − 5 from the cached pre-change info. -/
theorem maxFloatCached_witness :
    (MaxFloatC (fun _ _ => 100) 50 7 3700
        ⟨(cleanupC 3600 3600 stC6).mon, (cleanupC 3600 3600 stC6).smgr.setBacking (fun _ => infoB)⟩ 1).2
      = .ok (-95) := by
  have h := maxFloatCachedAfterNonEviction (fun _ _ => 100) 50 7 3600 3600 3700
    stC6 1 infoA { pendingAmount := 5, ticketsQueued := [], lastAccess := 0 }
    (fun _ => infoB) rfl (by decide) (by decide) (by decide)
  rw [h]
  rfl

/-- C7 counterexample: with pool size 0 but a failing `GetSenderInfo`,
`reserveAlloc` returns the error rather than 0 with no error: the pool-size
check sits after the `GetSenderInfo` error check. -/
theorem poolSizeZeroCounterexample :
    envPoolZeroErr.poolSize = 0
    ∧ reserveAlloc envPoolZeroErr 7 1 = .error "GetSenderInfo error" :=
  ⟨rfl, by rfl⟩

/-- C7 (amended): when `GetSenderInfo` succeeds and the transcoder pool size
is zero, `reserveAlloc` returns 0 with no error and `MaxFloat` returns the
negation of the sender's pending amount. -/
theorem poolSizeZero (env : ExtEnv) (claimant : Addr) (now : Int)
    (s : SMState) (addr : Addr) (info : SenderInfo)
    (hok : env.getSenderInfo addr = .ok info) (hpool : env.poolSize = 0) :
    reserveAlloc env claimant addr = .ok 0
    ∧ (MaxFloat env claimant now s addr).2 = .ok (-(pendingOf s addr)) := by
  have hra : reserveAlloc env claimant addr = .ok 0 := by
    simp [reserveAlloc, reserveAllocOf, hok, hpool]
  refine ⟨hra, ?_⟩
  rw [MaxFloat_eq, hra]
  norm_num

/-- Witness for `poolSizeZero`: pool size 0 on a sender with pending 5
yields MaxFloat = −5. -/
theorem poolSizeZero_witness :
    reserveAlloc envPoolZero 7 1 = .ok 0
    ∧ (MaxFloat envPoolZero 7 0 (SubFloat 0 initState 1 5) 1).2 = .ok (-(pendingOf (SubFloat 0 initState 1 5) 1)) :=
  poolSizeZero envPoolZero 7 0 (SubFloat 0 initState 1 5) 1 infoA rfl rfl

/-- C8: when `AddFloat` passes its pending-amount guard but the max-float
computation fails with an external read error, that error is returned while
the pending-amount decrease is kept. -/
theorem addFloatKeepsRetirement (env : ExtEnv) (claimant : Addr) (now : Int)
    (s : SMState) (addr : Addr) (amount : Int) (e : Err)
    (hle : amount ≤ pendingOf s addr)
    (herr : reserveAlloc env claimant addr = .error e) :
    (AddFloat env claimant now s addr amount).2 = some e
    ∧ pendingOf (AddFloat env claimant now s addr amount).1 addr
        = pendingOf s addr - amount := by
  refine ⟨?_, pendingOf_AddFloat_pass env claimant now s addr amount hle⟩
  rw [AddFloat_snd, if_neg (not_lt.mpr hle), herr]

/-- Witness for `addFloatKeepsRetirement`: AddFloat(3) after SubFloat(5)
with a failing `GetSenderInfo` returns the error and leaves pending = 2. -/
theorem addFloatKeepsRetirement_witness :
    (AddFloat envGetErr 7 0 (SubFloat 0 initState 1 5) 1 3).2 = some "GetSenderInfo error"
    ∧ pendingOf (AddFloat envGetErr 7 0 (SubFloat 0 initState 1 5) 1 3).1 1
        = pendingOf (SubFloat 0 initState 1 5) 1 - 3 :=
  addFloatKeepsRetirement envGetErr 7 0 (SubFloat 0 initState 1 5) 1 3
    "GetSenderInfo error" (by decide) (by rfl)

/-- C9: every `SubFloat` pushes a `ClearErrCount` call for the sender, and
so does every `AddFloat` that does not fail with the insufficient-pending
error. -/
theorem clearErrCountOnFloatChange (env : ExtEnv) (claimant : Addr)
    (now : Int) (s : SMState) (addr : Addr) (amount : Int) :
    (SubFloat now s addr amount).clearErrCountLog = addr :: s.clearErrCountLog
    ∧ ((AddFloat env claimant now s addr amount).2 ≠ some insufficientPendingErr →
        ((AddFloat env claimant now s addr amount).1).clearErrCountLog
          = addr :: s.clearErrCountLog) := by
  refine ⟨clearLog_SubFloat now s addr amount, fun hne => ?_⟩
  by_cases hy : pendingOf s addr < amount
  · exact absurd (by rw [AddFloat_fail env claimant now s addr amount hy]) hne
  · exact clearLog_AddFloat_pass env claimant now s addr amount (not_lt.mp hy)

/-- Witness for `clearErrCountOnFloatChange`: a successful AddFloat(0) on a
fresh sender records the ClearErrCount call. -/
theorem clearErrCountOnFloatChange_witness :
    ((AddFloat envS1 7 0 initState 1 0).1).clearErrCountLog
      = 1 :: initState.clearErrCountLog :=
  (clearErrCountOnFloatChange envS1 7 0 initState 1 0).2
    (by rw [AddFloat_snd]; decide)

/-- C10: every public operation runs `ensureCache` first, so even an
`AddFloat` that fails with the insufficient-pending error on an unknown
sender installs a fresh record (zero pending amount, fresh empty queue)
stamped with the current time, and so do the other three entry points. -/
theorem ensureCacheFrameEffect (env : ExtEnv) (claimant : Addr) (now : Int)
    (s : SMState) (addr : Addr) (amount : Int) (t : SignedTicket)
    (habs : lookupA s.senders addr = none) (hpos : 0 < amount) :
    (AddFloat env claimant now s addr amount).2 = some insufficientPendingErr
    ∧ lookupA ((AddFloat env claimant now s addr amount).1).senders addr
        = some { pendingAmount := 0, ticketsQueued := [], lastAccess := now }
    ∧ lookupA ((MaxFloat env claimant now s addr).1).senders addr
        = some { pendingAmount := 0, ticketsQueued := [], lastAccess := now }
    ∧ lookupA (SubFloat now s addr amount).senders addr
        = some { pendingAmount := amount, ticketsQueued := [], lastAccess := now }
    ∧ lookupA (QueueTicket now s addr t).senders addr
        = some { pendingAmount := 0, ticketsQueued := [t], lastAccess := now } := by
  have hp : pendingOf s addr = 0 := by simp [pendingOf, habs]
  have ht : ticketsOf s addr = [] := by simp [ticketsOf, habs]
  have hguard : pendingOf s addr < amount := by rw [hp]; exact hpos
  refine ⟨?_, ?_, ?_, ?_, ?_⟩
  · rw [AddFloat_fail env claimant now s addr amount hguard]
  · rw [lookupA_AddFloat]
    simp [hp, ht, hpos]
  · rw [lookupA_MaxFloat]
    simp [hp, ht]
  · rw [lookupA_SubFloat]
    simp [hp, ht]
  · rw [lookupA_QueueTicket]
    simp [hp, ht]

/-- Witness for `ensureCacheFrameEffect` on a fresh monitor. -/
theorem ensureCacheFrameEffect_witness :
    (AddFloat envS1 7 0 initState 1 10).2 = some insufficientPendingErr
    ∧ lookupA ((AddFloat envS1 7 0 initState 1 10).1).senders 1
        = some { pendingAmount := 0, ticketsQueued := [], lastAccess := 0 }
    ∧ lookupA ((MaxFloat envS1 7 0 initState 1).1).senders 1
        = some { pendingAmount := 0, ticketsQueued := [], lastAccess := 0 }
    ∧ lookupA (SubFloat 0 initState 1 10).senders 1
        = some { pendingAmount := 10, ticketsQueued := [], lastAccess := 0 }
    ∧ lookupA (QueueTicket 0 initState 1 { senderNonce := 0, faceValue := 5 }).senders 1
        = some { pendingAmount := 0, ticketsQueued := [{ senderNonce := 0, faceValue := 5 }], lastAccess := 0 } :=
  ensureCacheFrameEffect envS1 7 0 initState 1 10
    { senderNonce := 0, faceValue := 5 } rfl (by decide)

end PM
